import Mathlib

/-!
Shallow embedding of the `test-qn-filter` repository core:
* `src/utils/solana.ts` — `decodeBase58`
* `scripts/compare-instruction-formats.ts` — `quicknodeDataToBuffer`
* `src/filter.js` — `main`, `matchesFilter`, `formatTransaction`
* `src/utils/drift-decoder.ts` — `isPlaceSignedMsgTakerOrder`,
  `decodeSignedMsgOrder`, `decodeInstruction`

Bytes are modelled as `Nat` values (with explicit `% 256` where the source
masks with `& 0xff`); JavaScript `undefined`-able fields become `Option`;
thrown errors become `Except`.
-/

namespace QNFilter

/-- `BASE58_ALPHABET` from `src/utils/solana.ts`. -/
def BASE58_ALPHABET : String :=
  "123456789ABCDEFGHJKLMNPQRSTUVWXYZabcdefghijkmnopqrstuvwxyz"

/-- `BASE58_ALPHABET.indexOf(char)` from `decodeBase58`; `none` models the
JavaScript result `-1` (character outside the alphabet). -/
def b58Index (c : Char) : Option Nat :=
  BASE58_ALPHABET.data.findIdx? (· == c)

/-- Fuel-driven helper for `pushCarry`, structurally recursive so that the
kernel can evaluate it on concrete inputs; `pushCarryAux fuel c = pushCarry c`
whenever `c ≤ fuel`. -/
def pushCarryAux : Nat → Nat → List Nat
  | _, 0 => []
  | 0, _ + 1 => []
  | fuel + 1, c + 1 => (c + 1) % 256 :: pushCarryAux fuel ((c + 1) / 256)

/-- The trailing `while (carry > 0) { result.push(carry & 0xff); carry >>= 8 }`
loop of `decodeBase58`: the little-endian base-256 digits of `carry`.
All intermediate values in the source stay far below `2^31`, so JavaScript
`& 0xff` / `>> 8` coincide with `% 256` / `/ 256` on naturals. -/
def pushCarry (carry : Nat) : List Nat := pushCarryAux carry carry

/-- The `for (let j = 0; j < result.length; j++)` loop of `decodeBase58`
followed by the push-remaining-carry loop: multiplies the little-endian
number `result` by 58, adds `carry`, keeping digits below 256. -/
def mulAddLoop : List Nat → Nat → List Nat
  | [], carry => pushCarry carry
  | b :: rest, carry =>
      (carry + b * 58) % 256 :: mulAddLoop rest ((carry + b * 58) / 256)

/-- The main character loop of `decodeBase58`; `none` models the early
`return []` taken when a character is outside the alphabet. -/
def decodeBase58Go : List Char → List Nat → Option (List Nat)
  | [], result => some result
  | c :: cs, result =>
      match b58Index c with
      | none => none
      | some d => decodeBase58Go cs (mulAddLoop result d)

/-- The `for (i = 0; i < encoded.length && encoded[i] === '1'; i++)` count of
leading `'1'` characters in `decodeBase58`. -/
def leadingOnes : List Char → Nat
  | [] => 0
  | c :: cs => if c = '1' then leadingOnes cs + 1 else 0

/-- `decodeBase58` from `src/utils/solana.ts`: big-number base-58 decoding;
an invalid character yields `[]`; one zero byte is appended (before the final
reverse) per leading `'1'` character. -/
def decodeBase58 (encoded : String) : List Nat :=
  match decodeBase58Go encoded.data [] with
  | none => []
  | some result =>
      (result ++ List.replicate (leadingOnes encoded.data) 0).reverse

/-- `quicknodeDataToBuffer` from `scripts/compare-instruction-formats.ts`.
The `try` block is `Buffer.from(decodeBase58(data))`; since `decodeBase58`
is total and never throws, the `catch` branches (Base64, then UTF-8) are
unreachable and the function always returns the Base58 decoding. -/
def quicknodeDataToBuffer (data : String) : List Nat :=
  decodeBase58 data

-- ======================= src/filter.js =======================

/-- `DRIFT_PROGRAM_ID` from `src/filter.js` / `src/const.ts`. -/
def DRIFT_PROGRAM_ID : String := "dRiftyHA39MWEi3m9aunc5MzRF1JYuBsbn6VPcn33UH"

/-- `PERP_DISCRIMINATORS` from `src/filter.js` / `src/const.ts`: first 12
characters of the QuickNode-format (Base58 string) instruction data. -/
def PERP_DISCRIMINATORS : List String :=
  ["Pe62ShZLxbSn", "oktpafA6BG3U", "qbTdxZcVTFrK", "2rC4EaE3zM9d", "8tyRUgT5LQ4P"]

/-- One QuickNode-format instruction as read by `src/filter.js`: every field
access in the source is optional-chained, so each field is an `Option`. -/
structure Instruction where
  programId : Option String
  data : Option String
  accounts : List Nat
deriving DecidableEq, Repr

/-- `tx.meta` as read by `src/filter.js`: `err` (truthy when present),
`fee`, `logMessages`. -/
structure Meta where
  err : Option Unit
  fee : Nat
  logMessages : Option (List String)
deriving DecidableEq, Repr

/-- `tx.transaction.message` as read by `src/filter.js`. -/
structure TxMessage where
  instructions : Option (List Instruction)
deriving DecidableEq, Repr

/-- `tx.transaction` as read by `src/filter.js`. -/
structure TxInner where
  signatures : List String
  message : Option TxMessage
deriving DecidableEq, Repr

/-- A transaction record of the QuickNode stream payload. -/
structure Tx where
  transaction : Option TxInner
  meta : Option Meta
deriving DecidableEq, Repr

/-- One block entry of `stream.data` (`slot`, `blockTime`, `transactions`). -/
structure Block where
  slot : Nat
  blockTime : Nat
  transactions : Option (List Tx)
deriving DecidableEq, Repr

/-- The `stream` argument of `main`; `data = none` models an input whose
`data` field is absent, on which `stream.data[0]` throws and the
`try`/`catch` in `main` converts the error to `null`. -/
structure StreamInput where
  data : Option (List Block)
deriving DecidableEq, Repr

/-- The per-instruction predicate of `matchesFilter` (and of the `filter`
inside `formatTransaction`): `ix.programId === DRIFT_PROGRAM_ID &&
ix.data?.length >= 12 && PERP_DISCRIMINATORS.includes(ix.data.substring(0, 12))`. -/
def ixMatches (ix : Instruction) : Bool :=
  ix.programId == some DRIFT_PROGRAM_ID &&
    (match ix.data with
     | none => false
     | some d => decide (12 ≤ d.length) && PERP_DISCRIMINATORS.contains (d.take 12))

/-- `matchesFilter` from `src/filter.js`: `false` when the instruction list
is missing, otherwise `instructions.some(...)`. -/
def matchesFilter (tx : Tx) : Bool :=
  match tx.transaction with
  | none => false
  | some ti =>
      match ti.message with
      | none => false
      | some m =>
          match m.instructions with
          | none => false
          | some l => l.any ixMatches

/-- The projected instruction shape produced by `formatTransaction`. -/
structure OutInstruction where
  programId : Option String
  data : Option String
  accounts : List Nat
deriving DecidableEq, Repr

/-- The per-transaction record produced by `formatTransaction`. -/
structure TxRecord where
  signature : Option String
  slot : Nat
  blockTime : Nat
  success : Bool
  fee : Option Nat
  instructions : List OutInstruction
  logs : Option (List String)
deriving DecidableEq, Repr

/-- The instruction list read by `formatTransaction`:
`tx.transaction?.message?.instructions || []`. -/
def instructionsOf (tx : Tx) : Option (List Instruction) :=
  tx.transaction.bind (fun ti => ti.message.bind (fun m => m.instructions))

/-- `formatTransaction` from `src/filter.js`. -/
def formatTransaction (tx : Tx) (data : Block) : TxRecord :=
  let instructions := (instructionsOf tx).getD []
  { signature := tx.transaction.bind (fun ti => ti.signatures.head?)
    slot := data.slot
    blockTime := data.blockTime
    success := match tx.meta with
      | none => true
      | some m => m.err.isNone
    fee := tx.meta.map (·.fee)
    instructions :=
      (instructions.filter ixMatches).map
        (fun ix => { programId := ix.programId, data := ix.data, accounts := ix.accounts })
    logs := tx.meta.bind (·.logMessages) }

/-- The non-null result shape of `main`. -/
structure MainOutput where
  matchedTransactions : List TxRecord
deriving DecidableEq, Repr

/-- `main` from `src/filter.js`. `stream.data[0]` missing, a missing or
empty transaction list, and an empty match list all return `null`; the
surrounding `try`/`catch` converts any thrown error to `null` (with the
`Option`-typed fields no branch below can throw). -/
def main (stream : StreamInput) : Option MainOutput :=
  match stream.data with
  | none => none
  | some blocks =>
      match blocks.head? with
      | none => none
      | some data =>
          match data.transactions with
          | none => none
          | some txs =>
              if txs.isEmpty then none
              else
                let matchedTransactions :=
                  (txs.filter matchesFilter).map (fun tx => formatTransaction tx data)
                if matchedTransactions.isEmpty then none
                else some { matchedTransactions }

-- ======================= src/utils/drift-decoder.ts =======================

/-- `PLACE_SIGNED_MSG_TAKER_ORDER_DISCRIMINATOR` from
`src/utils/drift-decoder.ts`: hex `0x204f658b1906620f`. -/
def PSMTO_DISCRIMINATOR : List Nat := [0x20, 0x4f, 0x65, 0x8b, 0x19, 0x06, 0x62, 0x0f]

/-- `isPlaceSignedMsgTakerOrder` from `src/utils/drift-decoder.ts`:
`false` when fewer than 8 bytes, otherwise exact equality of
`ixData.slice(0, 8)` with the discriminator constant. -/
def isPlaceSignedMsgTakerOrder (ixData : List Nat) : Bool :=
  if ixData.length < 8 then false
  else ixData.take 8 == PSMTO_DISCRIMINATOR

/-- `buffer[i]` / `readUInt8` (bounds already checked at every use site in
the source, so the default 0 is never observed). -/
def byteAt (l : List Nat) (i : Nat) : Nat := l.getD i 0

/-- `Buffer.prototype.slice(a, b)` (clamping at the end of the buffer). -/
def bufSlice (l : List Nat) (a b : Nat) : List Nat := (l.drop a).take (b - a)

/-- `readUInt32LE(off)`. -/
def readUInt32LE (l : List Nat) (off : Nat) : Nat :=
  byteAt l off + 256 * byteAt l (off + 1) + 65536 * byteAt l (off + 2) +
    16777216 * byteAt l (off + 3)

/-- `readUInt16LE(off)`. -/
def readUInt16LE (l : List Nat) (off : Nat) : Nat :=
  byteAt l off + 256 * byteAt l (off + 1)

/-- `Buffer.from(str, "hex")` digit value: `0`-`9`, `a`-`f`, `A`-`F`
(character given by its code point). -/
def hexDigitVal (c : Nat) : Option Nat :=
  if 48 ≤ c ∧ c ≤ 57 then some (c - 48)
  else if 97 ≤ c ∧ c ≤ 102 then some (c - 87)
  else if 65 ≤ c ∧ c ≤ 70 then some (c - 55)
  else none

/-- `Buffer.from(str, "hex")`: consumes hex-digit pairs, stopping at the
first invalid pair and dropping a trailing unpaired character. -/
def hexPairs : List Nat → List Nat
  | c1 :: c2 :: rest =>
      match hexDigitVal c1, hexDigitVal c2 with
      | some hi, some lo => (16 * hi + lo) :: hexPairs rest
      | _, _ => []
  | _ => []

/-- `Buffer.prototype.toString("ascii")` keeps one character per byte after
clearing the high bit; the source then hex-parses that string, so we keep
the masked code points. -/
def asciiMask (l : List Nat) : List Nat := l.map (· % 128)

/-- The two `throw new Error(...)` conditions of `decodeSignedMsgOrder`. -/
inductive DecodeErr where
  | dataTooShort
  | dataTooShortDelegate
deriving DecidableEq, Repr

/-- The `.message` of the thrown `Error`, as caught by `decodeInstruction`. -/
def DecodeErr.msg : DecodeErr → String
  | .dataTooShort => "Data too short"
  | .dataTooShortDelegate => "Data too short for isDelegateSigner"

/-- `DecodedSignedMsgOrder` from `src/utils/drift-decoder.ts`; the `message`
field holds whatever the external SDK collaborator
(`driftClient.decodeSignedMsgOrderParamsMessage`) returns, so the record is
parametric in that type. -/
structure DecodedSignedMsgOrder (α : Type) where
  signature : List Nat
  signingAuthority : List Nat
  isDelegateSigner : Bool
  message : α
deriving DecidableEq, Repr

/-- `decodeSignedMsgOrder` from `src/utils/drift-decoder.ts`. `sdk` stands
for the external collaborator `driftClient.decodeSignedMsgOrderParamsMessage`
(message bytes and delegate flag in, opaque decoded message out).
`Except.error` models the two `throw` sites; `Except.ok none` models the
`return undefined` on a non-matching discriminator. -/
def decodeSignedMsgOrder {α : Type} (sdk : List Nat → Bool → α) (ixData : List Nat) :
    Except DecodeErr (Option (DecodedSignedMsgOrder α)) :=
  if ¬ isPlaceSignedMsgTakerOrder ixData then .ok none
  else
    let dataAfterDiscriminator := ixData.drop 8
    if dataAfterDiscriminator.length < 107 then .error .dataTooShort
    else
      let vecLength := readUInt32LE dataAfterDiscriminator 0
      let signature := bufSlice dataAfterDiscriminator 4 68
      let signingAuthority := bufSlice dataAfterDiscriminator 68 100
      let messageLengthRaw := readUInt16LE dataAfterDiscriminator 100
      let messageHexString :=
        asciiMask (bufSlice dataAfterDiscriminator 102 (102 + messageLengthRaw))
      let isDelegateSignerIndex := 4 + vecLength
      if dataAfterDiscriminator.length < isDelegateSignerIndex + 1 then
        .error .dataTooShortDelegate
      else
        let isDelegateSigner := byteAt dataAfterDiscriminator isDelegateSignerIndex == 1
        .ok (some { signature
                    signingAuthority
                    isDelegateSigner
                    message := sdk (hexPairs messageHexString) isDelegateSigner })

/-- The `type` field of `DecodedInstruction`. -/
inductive IxType where
  | placeSignedMsgTakerOrder
  | unknown
deriving DecidableEq, Repr

/-- `DecodedInstruction` from `src/utils/drift-decoder.ts`. -/
structure DecodedInstruction (α : Type) where
  index : Nat
  programId : String
  dataLength : Nat
  type : IxType
  decoded : Option (DecodedSignedMsgOrder α) := none
  error : Option String := none
deriving DecidableEq, Repr

/-- One compiled instruction of an RPC transaction, as read by
`decodeInstruction` (`programIdIndex` and `data` are the only fields used). -/
structure CompiledIx where
  programIdIndex : Nat
  data : List Nat
deriving DecidableEq, Repr

/-- `decodeInstruction` from `src/utils/drift-decoder.ts`; account keys
(the `PublicKey` objects) are modelled by their Base58 string form, with
`equals`/`toString` becoming string equality/identity. The `try`/`catch`
around `decodeSignedMsgOrder` becomes a `match` on the `Except`. -/
def decodeInstruction {α : Type} (sdk : List Nat → Bool → α) (ix : CompiledIx)
    (accountKeys : List String) (index : Nat) (driftProgramId : String) :
    DecodedInstruction α :=
  match accountKeys[ix.programIdIndex]? with
  | none =>
      { index, programId := "unknown", dataLength := 0, type := .unknown
        error := some "Program ID not found" }
  | some programId =>
      if programId ≠ driftProgramId then
        { index, programId, dataLength := ix.data.length, type := .unknown
          error := some "Not a Drift instruction" }
      else
        let ixData := ix.data
        if isPlaceSignedMsgTakerOrder ixData then
          match decodeSignedMsgOrder sdk ixData with
          | .ok decoded =>
              { index, programId, dataLength := ixData.length
                type := .placeSignedMsgTakerOrder, decoded }
          | .error e =>
              { index, programId, dataLength := ixData.length
                type := .placeSignedMsgTakerOrder, error := some e.msg }
        else
          { index, programId, dataLength := ixData.length, type := .unknown }

-- ======================= spec-side definitions =======================

/-- Modelled from the spec: the Base58 *encoder* (the repository only ships
the decoder). §4.1: big-number base-58 digits over the alphabet, "standard
leading-zero handling: each leading zero byte contributes one leading `'1'`
character". Digit `d` as a character. -/
def b58Char (d : Nat) : Char := BASE58_ALPHABET.data.getD d ' '

/-- Fuel-driven helper for `natToB58`, structurally recursive so that the
kernel can evaluate it; `natToB58Aux fuel n = natToB58 n` whenever `n ≤ fuel`. -/
def natToB58Aux : Nat → Nat → List Char
  | _, 0 => []
  | 0, _ + 1 => []
  | fuel + 1, n + 1 => natToB58Aux fuel ((n + 1) / 58) ++ [b58Char ((n + 1) % 58)]

/-- Modelled from the spec: most-significant-first base-58 digit characters
of a natural number (empty for 0). -/
def natToB58 (n : Nat) : List Char := natToB58Aux n n

/-- Big-endian value of a byte sequence. -/
def beVal (l : List Nat) : Nat := l.foldl (fun acc b => acc * 256 + b) 0

/-- Modelled from the spec: `Base58Encode` (§4.1, §8 round-trip property):
one `'1'` per leading zero byte, then the base-58 digits of the value. -/
def base58Encode (B : List Nat) : String :=
  ⟨List.replicate (B.takeWhile (· == 0)).length '1' ++ natToB58 (beVal B)⟩

/-- The spec's Discriminator Matcher (§4.2), stated over the *normalized
byte* payload as the claim reads: `false` on a wrong `programId` or fewer
than 8 bytes, else membership of `data[0:8]` in the five-entry allow-list.
The five 8-byte tags are the `discriminatorHex` values that `src/const.ts`
records for the five perp instructions (the last two share one tag). -/
def PERP_DISCRIMINATOR_TAGS : List (List Nat) :=
  [[0x45, 0xa1, 0x5d, 0xca, 0x78, 0x7e, 0x4c, 0xb9],
   [0xd5, 0x33, 0x01, 0xbb, 0x6c, 0xdc, 0xe6, 0xe0],
   [0x95, 0x75, 0x0b, 0xed, 0x2f, 0x5f, 0x59, 0xed],
   [0x20, 0x4f, 0x65, 0x8b, 0x19, 0x06, 0x62, 0x0f],
   [0x20, 0x4f, 0x65, 0x8b, 0x19, 0x06, 0x62, 0x0f]]

/-- The Discriminator Matcher exactly as the spec sentence describes it
(bytes in, `programId` in), to be compared with the deployed `ixMatches`. -/
def specDiscriminatorMatcher (data : List Nat) (programId : String) : Bool :=
  if programId ≠ DRIFT_PROGRAM_ID then false
  else if data.length < 8 then false
  else PERP_DISCRIMINATOR_TAGS.contains (data.take 8)

/-- Modelled from the spec: the Base64 decoding step of the §4.1 fallback
chain (the repository delegates it to Node's `Buffer.from(str, "base64")`,
which skips characters outside the alphabet and emits a byte per full 8
bits accumulated, 6 bits per alphabet character). Digit values. -/
def b64DigitVal (c : Char) : Option Nat :=
  if 'A' ≤ c ∧ c ≤ 'Z' then some (c.toNat - 65)
  else if 'a' ≤ c ∧ c ≤ 'z' then some (c.toNat - 97 + 26)
  else if '0' ≤ c ∧ c ≤ '9' then some (c.toNat - 48 + 52)
  else if c = '+' then some 62
  else if c = '/' then some 63
  else none

/-- Modelled from the spec: bit-accumulator loop of Base64 decoding.
`acc` holds `bits` pending bits (low-justified). -/
def b64Combine : List Nat → Nat → Nat → List Nat
  | [], _, _ => []
  | v :: vs, acc, bits =>
      let acc' := acc * 64 + v
      let bits' := bits + 6
      if 8 ≤ bits' then (acc' / 2 ^ (bits' - 8)) % 256 :: b64Combine vs acc' (bits' - 8)
      else b64Combine vs acc' bits'

/-- Modelled from the spec: Base64 decoding of a string. -/
def base64Decode (s : String) : List Nat :=
  b64Combine (s.data.filterMap b64DigitVal) 0 0

/-- The raw-UTF-8 final fallback of the §4.1 chain (all strings involved
here are ASCII, where UTF-8 is the code points). -/
def utf8Bytes (s : String) : List Nat := s.data.map Char.toNat

/-- Little-endian value of a digit list (the number represented by the
`result` array inside `decodeBase58`). -/
def leVal : List Nat → Nat
  | [] => 0
  | b :: r => b + 256 * leVal r

/-- `l.set i (l[i] XOR 2^k)`: the byte list with one bit flipped. -/
def flipBit (l : List Nat) (i k : Nat) : List Nat :=
  l.set i (l.getD i 0 ^^^ 2 ^ k)

-- ======================= concrete witness inputs =======================

/-- A concrete stand-in for the external SDK collaborator
`driftClient.decodeSignedMsgOrderParamsMessage`: returns its input bytes. -/
def sdk0 : List Nat → Bool → List Nat := fun b _ => b

/-- An instruction whose QuickNode data string Base58-decodes to exactly the
8-byte `placeSignedMsgTakerOrder` discriminator (an 8-byte payload encodes
to only 11 Base58 characters). -/
def c1Ix : Instruction :=
  { programId := some DRIFT_PROGRAM_ID, data := some "6QT2yPrrkES", accounts := [] }

/-- A `placeSignedMsgTakerOrder` payload that is too short: the
discriminator followed by 10 bytes. -/
def c4P : List Nat := PSMTO_DISCRIMINATOR ++ List.replicate 10 0

/-- An accepted `placeSignedMsgTakerOrder` payload: after the discriminator,
vecLength = 103, a 64-byte signature of 7s, a 32-byte authority of 9s,
message length 4, message characters "6162", one filler byte, and the
delegate flag 1 at stripped offset 4 + 103 = 107 (stripped length 108). -/
def c5P : List Nat :=
  PSMTO_DISCRIMINATOR ++ [103, 0, 0, 0] ++ List.replicate 64 7 ++
    List.replicate 32 9 ++ [4, 0] ++ [54, 49, 54, 50] ++ [0] ++ [1]

/-- The record that `decodeSignedMsgOrder sdk0 c5P` produces. -/
def c5Rec : DecodedSignedMsgOrder (List Nat) :=
  { signature := List.replicate 64 7
    signingAuthority := List.replicate 32 9
    isDelegateSigner := true
    message := [97, 98] }

/-- A short `placeSignedMsgTakerOrder` payload for the decode-failure case:
the discriminator followed by 5 bytes. -/
def c9Data : List Nat := PSMTO_DISCRIMINATOR ++ List.replicate 5 0

/-- A compiled instruction carrying `c9Data` at program-id index 0. -/
def c9Ix : CompiledIx := { programIdIndex := 0, data := c9Data }

/-- A matching QuickNode instruction (12-character discriminator prefix). -/
def ixMatch0 : Instruction :=
  { programId := some DRIFT_PROGRAM_ID, data := some "2rC4EaE3zM9d", accounts := [1, 2] }

/-- A non-matching QuickNode instruction (non-target program id). -/
def ixOther0 : Instruction :=
  { programId := some "11111111111111111111111111111111", data := some "2rC4EaE3zM9d", accounts := [] }

/-- A transaction containing one non-matching and one matching instruction. -/
def tx0 : Tx :=
  { transaction := some { signatures := ["sigA"], message := some { instructions := [ixOther0, ixMatch0] } }
    meta := some { err := none, fee := 5000, logMessages := some ["log1"] } }

/-- A block holding `tx0`. -/
def blk0 : Block := { slot := 123, blockTime := 456, transactions := some [tx0] }

/-- A stream input holding `blk0`. -/
def stream0 : StreamInput := { data := some [blk0] }

/-- The output `main` produces on `stream0`. -/
def out0 : MainOutput := { matchedTransactions := [formatTransaction tx0 blk0] }

/-- A malformed transaction: `transaction.message` is present but has no
instruction list. -/
def txNoIx : Tx :=
  { transaction := some { signatures := ["sigB"], message := some { instructions := none } }
    meta := none }

/-- A block whose `transactions` field is missing. -/
def blkNoTxs : Block := { slot := 1, blockTime := 2, transactions := none }

/-- A stream input whose only block has no transaction list. -/
def streamNoTxs : StreamInput := { data := some [blkNoTxs] }

/-- A stream input with no `data` field at all (`stream.data[0]` throws in
the source and the `catch` returns `null`). -/
def streamNoData : StreamInput := { data := none }

-- ======================= theorems =======================

theorem pushCarryAux_eq (fuel : Nat) : ∀ c : Nat, c ≤ fuel → pushCarryAux fuel c = pushCarry c := by
  induction fuel using Nat.strong_induction_on with
  | _ fuel ih =>
    intro c hc
    cases c with
    | zero => cases fuel <;> rfl
    | succ c =>
      cases fuel with
      | zero => omega
      | succ fuel =>
        show (c + 1) % 256 :: pushCarryAux fuel ((c + 1) / 256) = pushCarry (c + 1)
        have hd : (c + 1) / 256 ≤ fuel := by
          have := Nat.div_le_self (c + 1) 256
          omega
        have hd2 : (c + 1) / 256 ≤ c := by
          have := Nat.div_lt_self (show 0 < c + 1 by omega) (show 1 < 256 by omega)
          omega
        rw [ih fuel (by omega) _ hd]
        show _ = pushCarryAux (c + 1) (c + 1)
        show _ = (c + 1) % 256 :: pushCarryAux c ((c + 1) / 256)
        rw [ih c (by omega) _ hd2]

theorem pushCarry_zero : pushCarry 0 = [] := rfl

theorem pushCarry_pos (c : Nat) (h : c ≠ 0) :
    pushCarry c = c % 256 :: pushCarry (c / 256) := by
  match c, h with
  | c + 1, _ =>
    show pushCarryAux (c + 1) (c + 1) = _
    show (c + 1) % 256 :: pushCarryAux c ((c + 1) / 256) = _
    rw [pushCarryAux_eq c ((c + 1) / 256)
      (by have := Nat.div_lt_self (show 0 < c + 1 by omega) (show 1 < 256 by omega); omega)]

theorem natToB58Aux_eq (fuel : Nat) : ∀ n : Nat, n ≤ fuel → natToB58Aux fuel n = natToB58 n := by
  induction fuel using Nat.strong_induction_on with
  | _ fuel ih =>
    intro n hn
    cases n with
    | zero => cases fuel <;> rfl
    | succ n =>
      cases fuel with
      | zero => omega
      | succ fuel =>
        show natToB58Aux fuel ((n + 1) / 58) ++ [b58Char ((n + 1) % 58)] = natToB58 (n + 1)
        have hd : (n + 1) / 58 ≤ fuel := by
          have := Nat.div_le_self (n + 1) 58
          omega
        have hd2 : (n + 1) / 58 ≤ n := by
          have := Nat.div_lt_self (show 0 < n + 1 by omega) (show 1 < 58 by omega)
          omega
        rw [ih fuel (by omega) _ hd]
        show _ = natToB58Aux (n + 1) (n + 1)
        show _ = natToB58Aux n ((n + 1) / 58) ++ [b58Char ((n + 1) % 58)]
        rw [ih n (by omega) _ hd2]

theorem natToB58_zero : natToB58 0 = [] := rfl

theorem natToB58_pos (n : Nat) (h : n ≠ 0) :
    natToB58 n = natToB58 (n / 58) ++ [b58Char (n % 58)] := by
  match n, h with
  | n + 1, _ =>
    show natToB58Aux (n + 1) (n + 1) = _
    show natToB58Aux n ((n + 1) / 58) ++ [b58Char ((n + 1) % 58)] = _
    rw [natToB58Aux_eq n ((n + 1) / 58)
      (by have := Nat.div_lt_self (show 0 < n + 1 by omega) (show 1 < 58 by omega); omega)]

-- ======================= C1 =======================

/-- C1 counterexample: the instruction `c1Ix` carries the target program id
and QuickNode data `"6QT2yPrrkES"`, whose normalized payload is exactly the
8-byte allow-listed discriminator `0x204f658b1906620f` — so the claimed
byte-level matcher contract says it matches — yet the deployed matcher
(`ixMatches`, the per-instruction predicate of `matchesFilter`) rejects it,
because it requires at least 12 characters of the *string* form. -/
theorem c1_counterexample :
    c1Ix.programId = some DRIFT_PROGRAM_ID ∧
    c1Ix.data = some "6QT2yPrrkES" ∧
    quicknodeDataToBuffer "6QT2yPrrkES" = PSMTO_DISCRIMINATOR ∧
    specDiscriminatorMatcher (quicknodeDataToBuffer "6QT2yPrrkES") DRIFT_PROGRAM_ID = true ∧
    ixMatches c1Ix = false := by
  decide

/-- C1 (amended): the Discriminator Matcher of the deployed filter operates
on the QuickNode-format data *string*, not on normalized bytes: it returns
`true` iff the `programId` equals the target program identifier, the data
string is present with at least 12 characters, and its first 12 characters
equal one of the five fixed 12-character discriminator strings (exact
equality, no prefix matching beyond the 12-character cut, no case folding). -/
theorem c1_string_matcher (ix : Instruction) :
    ixMatches ix = true ↔
      ix.programId = some DRIFT_PROGRAM_ID ∧
      ∃ d, ix.data = some d ∧ 12 ≤ d.length ∧ d.take 12 ∈ PERP_DISCRIMINATORS := by
  unfold ixMatches
  cases hd : ix.data with
  | none => simp
  | some d =>
    simp only [Bool.and_eq_true, beq_iff_eq, Bool.and_eq_true, decide_eq_true_eq,
      List.contains, List.elem_iff, Option.some.injEq]
    constructor
    · rintro ⟨hpid, hlen, hmem⟩
      exact ⟨hpid, d, rfl, hlen, hmem⟩
    · rintro ⟨hpid, d', hd', hlen, hmem⟩
      cases hd'
      exact ⟨hpid, hlen, hmem⟩

-- ======================= C2 =======================

theorem b58Go_invalid (cs : List Char) :
    ∀ acc : List Nat, (∃ c ∈ cs, b58Index c = none) → decodeBase58Go cs acc = none := by
  induction cs with
  | nil => simp
  | cons c cs ih =>
    rintro acc ⟨x, hx, hnone⟩
    cases hidx : b58Index c with
    | none => simp only [decodeBase58Go, hidx]
    | some d =>
      simp only [decodeBase58Go, hidx]
      rcases List.mem_cons.mp hx with rfl | hx'
      · rw [hidx] at hnone
        cases hnone
      · exact ih _ ⟨x, hx', hnone⟩

/-- C2 counterexample: `"00"` contains a character outside the Base58
alphabet, so by the claim the normalizer should fall back to Base64
(yielding `[211]`) or, failing that, raw UTF-8 (yielding `[48, 48]`); the
code instead returns the empty byte sequence, because `decodeBase58`
returns `[]` on an invalid character instead of throwing, which makes the
`catch`-side Base64/UTF-8 fallbacks unreachable. -/
theorem c2_counterexample :
    (∃ c ∈ "00".data, b58Index c = none) ∧
    quicknodeDataToBuffer "00" = [] ∧
    base64Decode "00" = [211] ∧
    utf8Bytes "00" = [48, 48] := by
  decide

/-- C2 (amended): the normalizer always returns the Base58 decoding and
never raises (it is total); on a string containing any character outside
the 58-character alphabet it yields the *empty* byte sequence — the Base64
and raw-UTF-8 fallbacks of the source are dead code, never reached. -/
theorem c2_normalizer_empty_on_invalid (s : String)
    (h : ∃ c ∈ s.data, b58Index c = none) :
    quicknodeDataToBuffer s = decodeBase58 s ∧ quicknodeDataToBuffer s = [] := by
  refine ⟨rfl, ?_⟩
  show decodeBase58 s = []
  unfold decodeBase58
  rw [b58Go_invalid s.data [] h]

/-- C2 witness: the amended theorem applied to the concrete string `"00"`. -/
theorem c2_witness :
    quicknodeDataToBuffer "00" = decodeBase58 "00" ∧ quicknodeDataToBuffer "00" = [] :=
  c2_normalizer_empty_on_invalid "00" (by decide)

-- ======================= C7 =======================

/-- C7: a transaction whose instruction list is missing is treated as "no
match" by `matchesFilter`; a stream whose block has no transaction list, and
a stream with no `data` at all (where `stream.data[0]` throws and the
`try`/`catch` fires), both make `main` return `null` rather than raising —
in this embedding every branch is total, and the `catch` path is the
`data = none` case. -/
theorem c7_malformed_no_match (tx : Tx) (s s2 : StreamInput) (b : Block)
    (h1 : instructionsOf tx = none) (h2 : s.data = some [b])
    (h3 : b.transactions = none) (h4 : s2.data = none) :
    matchesFilter tx = false ∧ main s = none ∧ main s2 = none := by
  refine ⟨?_, ?_, ?_⟩
  · unfold matchesFilter
    cases htr : tx.transaction with
    | none => rfl
    | some ti =>
      cases hm : ti.message with
      | none => simp [hm]
      | some m =>
        cases hi : m.instructions with
        | none => simp [hm, hi]
        | some l =>
          simp [instructionsOf, htr, hm, hi] at h1
  · simp [main, h2, h3]
  · simp [main, h4]

/-- C7 witness: the theorem at the concrete malformed inputs. -/
theorem c7_witness :
    matchesFilter txNoIx = false ∧ main streamNoTxs = none ∧ main streamNoData = none :=
  c7_malformed_no_match txNoIx streamNoTxs streamNoData blkNoTxs rfl rfl rfl rfl

-- ======================= C8 =======================

theorem flipBit_ne_tag : ∀ i : Nat, i < 8 → ∀ k : Nat, k < 8 →
    flipBit PSMTO_DISCRIMINATOR i k ≠ PSMTO_DISCRIMINATOR := by
  decide

/-- C8: `isPlaceSignedMsgTakerOrder` classifies a payload as the
place pre-signed taker order instruction exactly when its first 8 bytes are
the tag `0x204f658b1906620f`: with the tag in place it matches, and with any
single bit of those 8 bytes flipped it does not. -/
theorem c8_discriminator_exact (P : List Nat) (h8 : 8 ≤ P.length) :
    (P.take 8 = PSMTO_DISCRIMINATOR → isPlaceSignedMsgTakerOrder P = true) ∧
    (∀ i k : Nat, i < 8 → k < 8 → P.take 8 = flipBit PSMTO_DISCRIMINATOR i k →
      isPlaceSignedMsgTakerOrder P = false) := by
  have hlt : ¬ P.length < 8 := by omega
  unfold isPlaceSignedMsgTakerOrder
  rw [if_neg hlt]
  constructor
  · intro h
    rw [h]
    exact beq_self_eq_true _
  · intro i k hi hk h
    rw [h]
    simp only [beq_eq_false_iff_ne, ne_eq]
    exact flipBit_ne_tag i hi k hk

/-- C8 witness: the theorem at the tag itself and at a one-bit variant. -/
theorem c8_witness :
    isPlaceSignedMsgTakerOrder PSMTO_DISCRIMINATOR = true ∧
    isPlaceSignedMsgTakerOrder (flipBit PSMTO_DISCRIMINATOR 0 0) = false :=
  ⟨(c8_discriminator_exact PSMTO_DISCRIMINATOR (by decide)).1 (by decide),
   (c8_discriminator_exact (flipBit PSMTO_DISCRIMINATOR 0 0) (by decide)).2 0 0
     (by decide) (by decide) (by decide)⟩

-- ======================= C4 =======================

/-- C4: with the discriminator in place, `decodeSignedMsgOrder` fails with
the "Data too short" condition whenever the discriminator-stripped payload
is under 107 bytes, fails with the delegate-flag "Data too short" condition
whenever `4 + vecLength + 1` exceeds the stripped length, and otherwise
never yields anything but an error or one complete record. -/
theorem c4_short_payload {α : Type} (sdk : List Nat → Bool → α) (P : List Nat)
    (hdisc : isPlaceSignedMsgTakerOrder P = true) :
    ((P.drop 8).length < 107 → decodeSignedMsgOrder sdk P = .error .dataTooShort) ∧
    (107 ≤ (P.drop 8).length → (P.drop 8).length < 4 + readUInt32LE (P.drop 8) 0 + 1 →
      decodeSignedMsgOrder sdk P = .error .dataTooShortDelegate) ∧
    ((∃ e, decodeSignedMsgOrder sdk P = .error e) ∨
      (∃ rec, decodeSignedMsgOrder sdk P = .ok (some rec))) := by
  refine ⟨?_, ?_, ?_⟩
  · intro hlen
    have h' : P.length - 8 < 107 := by simpa using hlen
    simp [decodeSignedMsgOrder, hdisc, h']
  · intro h107 hvec
    have h1 : ¬ (P.length - 8 < 107) := by
      simp only [List.length_drop] at h107
      omega
    have h2 : P.length - 8 < 4 + readUInt32LE (P.drop 8) 0 + 1 := by simpa using hvec
    simp [decodeSignedMsgOrder, hdisc, h1, h2]
  · by_cases hlen : P.length - 8 < 107
    · exact Or.inl ⟨.dataTooShort, by simp [decodeSignedMsgOrder, hdisc, hlen]⟩
    · by_cases hvec : P.length - 8 < 4 + readUInt32LE (P.drop 8) 0 + 1
      · exact Or.inl ⟨.dataTooShortDelegate, by simp [decodeSignedMsgOrder, hdisc, hlen, hvec]⟩
      · refine Or.inr
          ⟨{ signature := bufSlice (P.drop 8) 4 68
             signingAuthority := bufSlice (P.drop 8) 68 100
             isDelegateSigner := byteAt (P.drop 8) (4 + readUInt32LE (P.drop 8) 0) == 1
             message := sdk (hexPairs (asciiMask (bufSlice (P.drop 8) 102
               (102 + readUInt16LE (P.drop 8) 100))))
               (byteAt (P.drop 8) (4 + readUInt32LE (P.drop 8) 0) == 1) }, ?_⟩
        simp [decodeSignedMsgOrder, hdisc, hlen, hvec]

/-- C4 witness: the theorem at the 18-byte payload `c4P` (10 bytes after the
discriminator). -/
theorem c4_witness : decodeSignedMsgOrder sdk0 c4P = .error .dataTooShort :=
  (c4_short_payload sdk0 c4P (by decide)).1 (by decide)

-- ======================= C5 =======================

/-- C5: every record returned by `decodeSignedMsgOrder` carries, relative to
the discriminator-stripped payload: the 64 bytes at offsets 4..68 as
`signature`, the 32 bytes at offsets 68..100 as `signingAuthority`, the
delegate flag read as byte `4 + vecLength` equalling 1 (with `vecLength` the
little-endian u32 at offset 0), and as `message` the external SDK
collaborator applied to the hex-decoding of the ASCII bytes at offsets
102..102+messageLengthRaw (the little-endian u16 at offset 100) together
with that flag. -/
theorem c5_layout {α : Type} (sdk : List Nat → Bool → α) (P : List Nat)
    (rec : DecodedSignedMsgOrder α)
    (h : decodeSignedMsgOrder sdk P = .ok (some rec)) :
    rec.signature = bufSlice (P.drop 8) 4 68 ∧
    rec.signature.length = 64 ∧
    rec.signingAuthority = bufSlice (P.drop 8) 68 100 ∧
    rec.signingAuthority.length = 32 ∧
    rec.isDelegateSigner = (byteAt (P.drop 8) (4 + readUInt32LE (P.drop 8) 0) == 1) ∧
    rec.message = sdk (hexPairs (asciiMask
      (bufSlice (P.drop 8) 102 (102 + readUInt16LE (P.drop 8) 100)))) rec.isDelegateSigner := by
  by_cases hdisc : isPlaceSignedMsgTakerOrder P = true
  case neg => simp [decodeSignedMsgOrder, hdisc] at h
  case pos =>
    by_cases hlen : P.length - 8 < 107
    case pos => simp [decodeSignedMsgOrder, hdisc, hlen] at h
    case neg =>
      by_cases hvec : P.length - 8 < 4 + readUInt32LE (P.drop 8) 0 + 1
      case pos => simp [decodeSignedMsgOrder, hdisc, hlen, hvec] at h
      case neg =>
        simp [decodeSignedMsgOrder, hdisc, hlen, hvec] at h
        subst h
        refine ⟨rfl, ?_, rfl, ?_, rfl, rfl⟩
        · simp only [bufSlice, List.length_take, List.length_drop]
          omega
        · simp only [bufSlice, List.length_take, List.length_drop]
          omega

/-- C5 witness: the theorem at the concrete accepted payload `c5P` and its
record `c5Rec`. -/
theorem c5_witness :
    c5Rec.signature = bufSlice (c5P.drop 8) 4 68 ∧
    c5Rec.signature.length = 64 ∧
    c5Rec.signingAuthority = bufSlice (c5P.drop 8) 68 100 ∧
    c5Rec.signingAuthority.length = 32 ∧
    c5Rec.isDelegateSigner = (byteAt (c5P.drop 8) (4 + readUInt32LE (c5P.drop 8) 0) == 1) ∧
    c5Rec.message = sdk0 (hexPairs (asciiMask
      (bufSlice (c5P.drop 8) 102 (102 + readUInt16LE (c5P.drop 8) 100)))) c5Rec.isDelegateSigner :=
  c5_layout sdk0 c5P c5Rec (by rfl)

-- ======================= C9 =======================

/-- C9: when the program id resolves to the Drift program and the payload
carries the pre-signed taker order discriminator but `decodeSignedMsgOrder`
raises a decode error, `decodeInstruction` catches it and returns a result
record that still reports the instruction as `placeSignedMsgTakerOrder` but
carries the error message instead of a decoded order; nothing propagates. -/
theorem c9_decode_error_downgrade {α : Type} (sdk : List Nat → Bool → α)
    (ix : CompiledIx) (keys : List String) (idx : Nat) (dpid : String) (e : DecodeErr)
    (hpid : keys[ix.programIdIndex]? = some dpid)
    (herr : decodeSignedMsgOrder sdk ix.data = .error e) :
    decodeInstruction sdk ix keys idx dpid =
      { index := idx, programId := dpid, dataLength := ix.data.length,
        type := .placeSignedMsgTakerOrder, decoded := none, error := some e.msg } := by
  have hdisc : isPlaceSignedMsgTakerOrder ix.data = true := by
    by_contra hfalse
    rw [Bool.not_eq_true] at hfalse
    simp [decodeSignedMsgOrder, hfalse] at herr
  unfold decodeInstruction
  rw [hpid]
  simp [hdisc, herr]

/-- C9 witness: the theorem at the short payload `c9Data` inside `c9Ix`. -/
theorem c9_witness :
    decodeInstruction sdk0 c9Ix [DRIFT_PROGRAM_ID] 0 DRIFT_PROGRAM_ID =
      { index := 0, programId := DRIFT_PROGRAM_ID, dataLength := 13,
        type := .placeSignedMsgTakerOrder, decoded := none,
        error := some "Data too short" } :=
  c9_decode_error_downgrade sdk0 c9Ix [DRIFT_PROGRAM_ID] 0 DRIFT_PROGRAM_ID
    .dataTooShort (by rfl) (by rfl)

-- ======================= C6 =======================

theorem matchesFilter_some (tx : Tx) (ti : TxInner) (m : TxMessage) (l : List Instruction)
    (h1 : tx.transaction = some ti) (h2 : ti.message = some m)
    (h3 : m.instructions = some l) :
    matchesFilter tx = l.any ixMatches := by
  obtain ⟨otr, om⟩ := tx
  obtain ⟨sigs, omsg⟩ := ti
  obtain ⟨oins⟩ := m
  cases h1
  cases h2
  cases h3
  rfl

theorem matchesFilter_true (tx : Tx) (h : matchesFilter tx = true) :
    ∃ l, instructionsOf tx = some l ∧ l.any ixMatches = true := by
  obtain ⟨otr, om⟩ := tx
  cases otr with
  | none => exact Bool.noConfusion h
  | some ti =>
    obtain ⟨sigs, omsg⟩ := ti
    cases omsg with
    | none => exact Bool.noConfusion h
    | some m =>
      obtain ⟨oins⟩ := m
      cases oins with
      | none => exact Bool.noConfusion h
      | some l => exact ⟨l, rfl, h⟩

/-- C6: on a transaction with a well-formed instruction list, the filter
matches exactly when some instruction satisfies the per-instruction
predicate, and the produced record contains exactly the matching
instructions (projected to `programId`/`data`/`accounts`), in their
original relative order — `List.filter` preserves order and drops every
non-matching entry. -/
theorem c6_filter_reduction (tx : Tx) (ti : TxInner) (m : TxMessage)
    (l : List Instruction) (d : Block)
    (h1 : tx.transaction = some ti) (h2 : ti.message = some m)
    (h3 : m.instructions = some l) :
    (matchesFilter tx = true ↔ ∃ ix ∈ l, ixMatches ix = true) ∧
    (formatTransaction tx d).instructions =
      (l.filter ixMatches).map
        (fun ix => { programId := ix.programId, data := ix.data, accounts := ix.accounts }) := by
  constructor
  · rw [matchesFilter_some tx ti m l h1 h2 h3]
    exact List.any_eq_true
  · show (((instructionsOf tx).getD []).filter ixMatches).map _ = _
    simp [instructionsOf, h1, h2, h3]

/-- C6 witness: the theorem at the concrete transaction `tx0`, whose
instruction list holds one non-matching and one matching instruction. -/
theorem c6_witness :
    (matchesFilter tx0 = true ↔ ∃ ix ∈ [ixOther0, ixMatch0], ixMatches ix = true) ∧
    (formatTransaction tx0 blk0).instructions =
      ([ixOther0, ixMatch0].filter ixMatches).map
        (fun ix => { programId := ix.programId, data := ix.data, accounts := ix.accounts }) :=
  c6_filter_reduction tx0
    { signatures := ["sigA"], message := some { instructions := [ixOther0, ixMatch0] } }
    { instructions := [ixOther0, ixMatch0] } [ixOther0, ixMatch0] blk0 rfl rfl rfl

-- ======================= C10 =======================

/-- C10: `main` never returns a non-null result with an empty
`matchedTransactions` list, and every record inside a non-null result
contains at least one instruction — `formatTransaction` selects with the
same predicate that made `matchesFilter` return `true`. -/
theorem c10_nonempty (s : StreamInput) (out : MainOutput) (h : main s = some out) :
    out.matchedTransactions ≠ [] ∧
    ∀ r ∈ out.matchedTransactions, r.instructions ≠ [] := by
  unfold main at h
  cases hd : s.data with
  | none => rw [hd] at h; cases h
  | some blocks =>
    rw [hd] at h
    dsimp only at h
    cases hb : blocks.head? with
    | none => rw [hb] at h; cases h
    | some data =>
      rw [hb] at h
      dsimp only at h
      cases ht : data.transactions with
      | none => rw [ht] at h; cases h
      | some txs =>
        rw [ht] at h
        dsimp only at h
        by_cases hemp : txs.isEmpty
        · rw [if_pos hemp] at h; cases h
        · rw [if_neg hemp] at h
          by_cases hm :
              ((txs.filter matchesFilter).map (fun tx => formatTransaction tx data)).isEmpty
          · rw [if_pos hm] at h; cases h
          · rw [if_neg hm] at h
            obtain rfl := (Option.some.injEq _ _ ▸ h.symm)
            constructor
            · intro hnil
              rw [show ((txs.filter matchesFilter).map
                  (fun tx => formatTransaction tx data)) = [] from hnil] at hm
              exact hm rfl
            · intro r hr
              obtain ⟨tx, htx, rfl⟩ := List.mem_map.mp hr
              have hmem : matchesFilter tx = true := (List.mem_filter.mp htx).2
              obtain ⟨l, hl, hany⟩ := matchesFilter_true tx hmem
              obtain ⟨x, hx, hpx⟩ := List.any_eq_true.mp hany
              have hform : (formatTransaction tx data).instructions =
                  (l.filter ixMatches).map
                    (fun ix => { programId := ix.programId, data := ix.data,
                                 accounts := ix.accounts }) := by
                show (((instructionsOf tx).getD []).filter ixMatches).map _ = _
                rw [hl]
                rfl
              rw [hform]
              intro hnil
              have hxin : x ∈ l.filter ixMatches := List.mem_filter.mpr ⟨hx, hpx⟩
              rw [List.map_eq_nil_iff] at hnil
              rw [hnil] at hxin
              cases hxin

/-- C10 witness: the theorem at the concrete stream `stream0`. -/
theorem c10_witness :
    out0.matchedTransactions ≠ [] ∧
    ∀ r ∈ out0.matchedTransactions, r.instructions ≠ [] :=
  c10_nonempty stream0 out0 (by rfl)

-- ======================= C3 =======================

theorem mulAddLoop_pushCarry (m : Nat) :
    ∀ c : Nat, mulAddLoop (pushCarry m) c = pushCarry (58 * m + c) := by
  induction m using Nat.strong_induction_on with
  | _ m ih =>
    intro c
    by_cases hm : m = 0
    · subst hm
      show pushCarry c = pushCarry (58 * 0 + c)
      norm_num
    · rw [pushCarry_pos m hm]
      show (c + m % 256 * 58) % 256 ::
        mulAddLoop (pushCarry (m / 256)) ((c + m % 256 * 58) / 256) = _
      rw [ih (m / 256) (Nat.div_lt_self (Nat.pos_of_ne_zero hm) (by omega))]
      have hne : 58 * m + c ≠ 0 := by omega
      rw [pushCarry_pos _ hne]
      have e1 : (c + m % 256 * 58) % 256 = (58 * m + c) % 256 := by omega
      have e2 : 58 * (m / 256) + (c + m % 256 * 58) / 256 = (58 * m + c) / 256 := by omega
      rw [e1, e2]

theorem decodeGo_append (xs ys : List Char) : ∀ acc : List Nat,
    decodeBase58Go (xs ++ ys) acc =
      match decodeBase58Go xs acc with
      | none => none
      | some r => decodeBase58Go ys r := by
  induction xs with
  | nil => intro acc; rfl
  | cons c cs ih =>
    intro acc
    show decodeBase58Go (c :: (cs ++ ys)) acc = _
    cases h : b58Index c with
    | none => simp only [decodeBase58Go, h]
    | some d => simp only [decodeBase58Go, h, ih]

theorem b58Index_b58Char : ∀ d : Nat, d < 58 → b58Index (b58Char d) = some d := by
  decide

theorem decodeGo_natToB58 (n : Nat) : ∀ m : Nat,
    decodeBase58Go (natToB58 n) (pushCarry m) =
      some (pushCarry (m * 58 ^ (natToB58 n).length + n)) := by
  induction n using Nat.strong_induction_on with
  | _ n ih =>
    intro m
    by_cases hn : n = 0
    · subst hn
      show some (pushCarry m) = _
      rw [natToB58_zero]
      norm_num
    · rw [natToB58_pos n hn, decodeGo_append,
        ih (n / 58) (Nat.div_lt_self (Nat.pos_of_ne_zero hn) (by omega)) m]
      have hidx := b58Index_b58Char (n % 58) (Nat.mod_lt n (by omega))
      show decodeBase58Go [b58Char (n % 58)]
        (pushCarry (m * 58 ^ (natToB58 (n / 58)).length + n / 58)) = _
      simp only [decodeBase58Go, hidx]
      rw [mulAddLoop_pushCarry]
      congr 2
      have hnm := Nat.div_add_mod n 58
      rw [List.length_append, List.length_singleton, pow_succ]
      ring_nf
      omega

theorem b58Index_one : b58Index '1' = some 0 := by decide

theorem decodeGo_ones (k : Nat) (cs : List Char) :
    decodeBase58Go (List.replicate k '1' ++ cs) [] = decodeBase58Go cs [] := by
  induction k with
  | zero => rfl
  | succ k ih =>
    show decodeBase58Go ('1' :: (List.replicate k '1' ++ cs)) [] = _
    simp only [decodeBase58Go, b58Index_one]
    exact ih

theorem leadingOnes_replicate (k : Nat) (cs : List Char)
    (hcs : ∀ c, cs.head? = some c → c ≠ '1') :
    leadingOnes (List.replicate k '1' ++ cs) = k := by
  induction k with
  | zero =>
    show leadingOnes cs = 0
    cases cs with
    | nil => rfl
    | cons c cs' =>
      show (if c = '1' then leadingOnes cs' + 1 else 0) = 0
      rw [if_neg (hcs c rfl)]
  | succ k ih =>
    show (if '1' = '1' then leadingOnes (List.replicate k '1' ++ cs) + 1 else 0) = k + 1
    rw [if_pos rfl, ih]

theorem natToB58_ne_nil (n : Nat) (hn : n ≠ 0) : natToB58 n ≠ [] := by
  rw [natToB58_pos n hn]
  simp

theorem b58Char_ne_one : ∀ d : Nat, d < 58 → 0 < d → b58Char d ≠ '1' := by
  decide

theorem natToB58_head_ne_one (n : Nat) :
    ∀ c, (natToB58 n).head? = some c → c ≠ '1' := by
  induction n using Nat.strong_induction_on with
  | _ n ih =>
    intro c hc
    by_cases hn : n = 0
    · subst hn
      exact Option.noConfusion hc
    · rw [natToB58_pos n hn] at hc
      by_cases h58 : n / 58 = 0
      · rw [h58, natToB58_zero] at hc
        simp only [List.nil_append, List.head?_cons, Option.some.injEq] at hc
        subst hc
        exact b58Char_ne_one (n % 58) (Nat.mod_lt n (by omega)) (by omega)
      · cases hh : natToB58 (n / 58) with
        | nil => exact absurd hh (natToB58_ne_nil (n / 58) h58)
        | cons a as =>
          rw [hh] at hc
          simp only [List.cons_append, List.head?_cons, Option.some.injEq] at hc
          subst hc
          exact ih (n / 58) (Nat.div_lt_self (by omega) (by omega)) a (by rw [hh]; rfl)

theorem beVal_append_singleton (l : List Nat) (b : Nat) :
    beVal (l ++ [b]) = beVal l * 256 + b := by
  simp [beVal, List.foldl_append]

theorem beVal_eq_leVal_reverse (l : List Nat) : beVal l = leVal l.reverse := by
  induction l using List.reverseRecOn with
  | nil => rfl
  | append_singleton l b ih =>
    rw [beVal_append_singleton, List.reverse_append]
    show _ = leVal (b :: l.reverse)
    show _ = b + 256 * leVal l.reverse
    rw [ih]
    ring

theorem pushCarry_leVal : ∀ r : List Nat, (∀ b ∈ r, b < 256) →
    r.getLast? ≠ some 0 → pushCarry (leVal r) = r := by
  intro r
  induction r with
  | nil => intro _ _; rfl
  | cons b rest ih =>
    intro h256 hlast
    have hb : b < 256 := h256 b (by simp)
    cases rest with
    | nil =>
      have hb0 : b ≠ 0 := by
        intro h0
        subst h0
        exact hlast rfl
      show pushCarry (b + 256 * leVal []) = [b]
      rw [show b + 256 * leVal [] = b from by simp [leVal]]
      rw [pushCarry_pos b hb0, Nat.mod_eq_of_lt hb, Nat.div_eq_of_lt hb]
      rfl
    | cons x rest' =>
      have hlast' : (x :: rest').getLast? ≠ some 0 := by
        rwa [List.getLast?_cons_cons] at hlast
      have ih' := ih (fun y hy => h256 y (List.mem_cons_of_mem _ hy)) hlast'
      have hvpos : leVal (x :: rest') ≠ 0 := by
        intro h0
        rw [h0, pushCarry_zero] at ih'
        exact List.noConfusion ih'
      show pushCarry (b + 256 * leVal (x :: rest')) = b :: x :: rest'
      have hne : b + 256 * leVal (x :: rest') ≠ 0 := by
        have := Nat.pos_of_ne_zero hvpos
        omega
      rw [pushCarry_pos _ hne]
      have e1 : (b + 256 * leVal (x :: rest')) % 256 = b := by omega
      have e2 : (b + 256 * leVal (x :: rest')) / 256 = leVal (x :: rest') := by omega
      rw [e1, e2, ih']

theorem takeWhile_zeros (B : List Nat) :
    B.takeWhile (· == 0) = List.replicate (B.takeWhile (· == 0)).length 0 := by
  rw [List.eq_replicate_length]
  intro b hb
  have := List.mem_takeWhile_imp hb
  simpa using this

theorem beVal_zero_prefix (k : Nat) (B1 : List Nat) :
    beVal (List.replicate k 0 ++ B1) = beVal B1 := by
  induction k with
  | zero => rfl
  | succ k ih =>
    show beVal (0 :: (List.replicate k 0 ++ B1)) = _
    show List.foldl (fun acc b => acc * 256 + b) (0 * 256 + 0) (List.replicate k 0 ++ B1) = _
    rw [show (0 : Nat) * 256 + 0 = 0 from rfl]
    exact ih

theorem dropWhile_head_ne_zero (B : List Nat) :
    ∀ c, (B.dropWhile (· == 0)).head? = some c → c ≠ 0 := by
  induction B with
  | nil => intro c hc; exact Option.noConfusion hc
  | cons b rest ih =>
    intro c hc
    rw [List.dropWhile_cons] at hc
    by_cases hb : b = 0
    · rw [if_pos (by simp [hb])] at hc
      exact ih c hc
    · rw [if_neg (by simp [hb])] at hc
      simp only [List.head?_cons, Option.some.injEq] at hc
      subst hc
      exact hb

/-- C3: Base58 round-trip — for every byte sequence `B` (each entry below
256), including the empty sequence and sequences with leading zero bytes,
`decodeBase58` applied to the spec's Base58 encoding of `B` yields exactly
`B`; each leading zero byte corresponds to one leading `'1'` character. -/
theorem c3_roundtrip (B : List Nat) (h256 : ∀ b ∈ B, b < 256) :
    decodeBase58 (base58Encode B) = B := by
  have hsplit : B.takeWhile (· == 0) ++ B.dropWhile (· == 0) = B :=
    List.takeWhile_append_dropWhile (· == 0) B
  have hrepl := takeWhile_zeros B
  have hN : beVal B = beVal (B.dropWhile (· == 0)) := by
    conv_lhs => rw [← hsplit, hrepl, beVal_zero_prefix]
  show decodeBase58 (String.mk (List.replicate (B.takeWhile (· == 0)).length '1' ++
    natToB58 (beVal B))) = B
  unfold decodeBase58
  rw [show (String.mk (List.replicate (B.takeWhile (· == 0)).length '1' ++
        natToB58 (beVal B))).data =
      List.replicate (B.takeWhile (· == 0)).length '1' ++ natToB58 (beVal B) from rfl]
  rw [decodeGo_ones]
  rw [show decodeBase58Go (natToB58 (beVal B)) [] = some (pushCarry (beVal B)) from by
    have := decodeGo_natToB58 (beVal B) 0
    simpa using this]
  rw [leadingOnes_replicate _ _ (natToB58_head_ne_one (beVal B))]
  show (pushCarry (beVal B) ++
    List.replicate (B.takeWhile (· == 0)).length 0).reverse = B
  have hPC : pushCarry (beVal B) = (B.dropWhile (· == 0)).reverse := by
    rw [hN, beVal_eq_leVal_reverse]
    apply pushCarry_leVal
    · intro b hb
      refine h256 b ?_
      rw [List.mem_reverse] at hb
      exact (List.dropWhile_sublist _).mem hb
    · rw [List.getLast?_reverse]
      intro hbad
      exact dropWhile_head_ne_zero B 0 hbad rfl
  rw [hPC, List.reverse_append, List.reverse_reverse, List.reverse_replicate]
  rw [← hrepl]
  exact hsplit

/-- C3 witness: the round-trip theorem at the concrete byte sequence
`[0, 0, 7, 0]` (leading zero bytes included). -/
theorem c3_witness : decodeBase58 (base58Encode [0, 0, 7, 0]) = [0, 0, 7, 0] :=
  c3_roundtrip [0, 0, 7, 0] (by decide)

end QNFilter
